import Mathlib

/-!
Verification development for the GCP data-analysis platform
(webapp `src/webapp/main.py` and the two Cloud Functions
`src/functions/process_upload/main.py`, `src/functions/import_sql_to_cloudsql/main.py`).

The Python source is shallowly embedded: pure helpers become Lean functions on
`String` / `List`; the stateful pipeline (GCS objects, Pub/Sub queue, BigQuery
tables and views) becomes explicit state passing over small association lists;
Python exceptions become `Except`.  String primitives of the source
(`str.lower`, `str.upper`, `str.replace`, `str.endswith`, `os.path.splitext`)
are re-implemented on `List Char` so that every definition evaluates inside the
kernel.  ASCII data is assumed throughout (BigQuery identifiers and the
filenames of interest are ASCII), for which the character-level maps below
agree with the Python originals.
-/

namespace GCPDAP

instance exceptDecEq {ε α : Type} [DecidableEq ε] [DecidableEq α] :
    DecidableEq (Except ε α) := fun a b =>
  match a, b with
  | Except.ok x, Except.ok y => decidable_of_iff (x = y) (by simp)
  | Except.ok _, Except.error _ => isFalse (by intro h; cases h)
  | Except.error _, Except.ok _ => isFalse (by intro h; cases h)
  | Except.error x, Except.error y => decidable_of_iff (x = y) (by simp)

/-- ASCII lower-casing of one character, as Python `str.lower` acts on ASCII. -/
def lowerChar (c : Char) : Char :=
  if 'A' ≤ c ∧ c ≤ 'Z' then Char.ofNat (c.toNat + 32) else c

/-- ASCII upper-casing of one character, as Python `str.upper` acts on ASCII. -/
def upperChar (c : Char) : Char :=
  if 'a' ≤ c ∧ c ≤ 'z' then Char.ofNat (c.toNat - 32) else c

/-- Python `s.lower()` restricted to ASCII strings. -/
def lowerStr (s : String) : String :=
  String.mk (s.data.map lowerChar)

/-- Python `s.upper()` restricted to ASCII strings. -/
def upperStr (s : String) : String :=
  String.mk (s.data.map upperChar)

/-- Python `s.endswith(suffix)`. -/
def endsWithStr (s suffix : String) : Bool :=
  suffix.data.isSuffixOf s.data

/-- Python `s.replace(" ", "_")` (single-character pattern). -/
def spacesToUnderscores (s : String) : String :=
  String.mk (s.data.map (fun c => if c = ' ' then '_' else c))

/-- Python `s.replace(".", "_")` (single-character pattern), used by
`process_upload` to derive a BigQuery table id from a file name. -/
def dotsToUnderscores (s : String) : String :=
  String.mk (s.data.map (fun c => if c = '.' then '_' else c))

/-- A character of the regex class `[a-zA-Z0-9_]`. -/
def isWordChar (c : Char) : Bool :=
  decide (('a' ≤ c ∧ c ≤ 'z') ∨ ('A' ≤ c ∧ c ≤ 'Z') ∨ ('0' ≤ c ∧ c ≤ '9') ∨ c = '_')

/-- Python `re.match(r"^[a-zA-Z0-9_]\x7b1,128\x7d$", s) is not None`.
In Python `$` matches at the end of the string or just before a newline that is
the last character, so the regex also accepts a word string followed by one
trailing newline.  Since the character class excludes the newline, the match
succeeds exactly when the string minus an optional final newline consists of
1 to 128 word characters. -/
def re_match_ident (s : String) : Bool :=
  let cs := s.data
  let core := if cs.getLast? = some '\n' then cs.dropLast else cs
  decide (1 ≤ core.length) && decide (core.length ≤ 128) && core.all isWordChar

/-- The reserved keyword set of `validate_table_name` (webapp line 118). -/
def SQL_KEYWORDS : List String :=
  ["SELECT", "INSERT", "UPDATE", "DELETE", "DROP", "CREATE", "ALTER",
   "EXEC", "UNION", "WHERE", "JOIN"]

/-- `validate_table_name` (webapp lines 108-122): empty check, regex check,
keyword check; returns the name unchanged on success, raises `ValueError`
(modelled as `Except.error` with the exact message) otherwise. -/
def validate_table_name (table_name : String) : Except String String :=
  if table_name = "" then
    Except.error "Table name cannot be empty"
  else if re_match_ident table_name then
    if SQL_KEYWORDS.contains (upperStr table_name) then
      Except.error "Table name cannot be a SQL keyword"
    else
      Except.ok table_name
  else
    Except.error "Invalid table name. Only letters, numbers, and underscores allowed (max 128 chars)"

/-- The property the spec ascribes to the validator: the string matches
`^[a-zA-Z0-9_]\x7b1,128\x7d$` under ordinary (end-of-string) anchor semantics. -/
def specMatchesIdent (s : String) : Bool :=
  decide (1 ≤ s.data.length) && decide (s.data.length ≤ 128) && s.data.all isWordChar

-- ===============================
-- Association-list maps (Python dict with insertion order)
-- ===============================

/-- `d[k] = v` on an insertion-ordered dict: overwrite in place if the key is
present, append otherwise. -/
def updEntry {α : Type} (d : List (String × α)) (k : String) (v : α) : List (String × α) :=
  if d.any (fun p => p.1 = k) then
    d.map (fun p => if p.1 = k then (k, v) else p)
  else
    d ++ [(k, v)]

/-- `d.get(k)` on a dict. -/
def getEntry {α : Type} (d : List (String × α)) (k : String) : Option α :=
  (d.find? (fun p => p.1 = k)).map (fun p => p.2)

/-- Keys of a dict are pairwise distinct (holds for every dict the model builds). -/
def keysNodup {α : Type} (d : List (String × α)) : Prop :=
  (d.map (fun p => p.1)).Nodup

-- ===============================
-- Column role resolver (webapp lines 222-257)
-- ===============================

/-- `_table_schema_cols` (webapp lines 222-228): index the schema by
lower-cased column name, keeping the original casing as the value; a later
column whose lower-cased name collides overwrites the earlier entry, exactly
as the Python dict assignment does. -/
def _table_schema_cols (schema : List String) : List (String × String) :=
  schema.foldl (fun out f => updEntry out (lowerStr f) f) []

/-- `_pick_column` (webapp lines 230-238): first candidate, in list order,
whose lower-casing is a key of the schema dict; returns the stored original
casing.  The `required` flag of the source only chooses between raising and
returning `None`, which the callers of this model handle. -/
def _pick_column (cols : List (String × String)) (candidates : List String) : Option String :=
  candidates.findSome? (fun c => getEntry cols (lowerStr c))

def DEPARTMENT_CANDIDATES : List String :=
  ["department", "dept", "cost_center", "costcentre", "cost_centre"]

def AMOUNT_CANDIDATES : List String :=
  ["amount", "total_amount", "spend", "cost", "value", "amt"]

def DATE_CANDIDATES : List String :=
  ["date", "txn_date", "transaction_date", "post_date", "doc_date", "month", "period"]

def EXPENSE_CANDIDATES : List String :=
  ["expense_type", "category", "type", "gl_code"]

structure FinanceCols where
  department : String
  amount : String
  date : String
  expense_type : Option String
deriving DecidableEq, Repr

/-- The `ValueError` of `_pick_column`: the message is
`"Could not find any of columns: " ++ candidates` with the attempted candidate
list rendered into it; the model keeps the list itself. -/
structure ResolutionError where
  candidates : List String
deriving DecidableEq, Repr

/-- `_detect_finance_columns` (webapp lines 240-257): resolve the three
required roles and the optional expense role against the schema dict. -/
def _detect_finance_columns (schema : List String) : Except ResolutionError FinanceCols :=
  let cols := _table_schema_cols schema
  match _pick_column cols DEPARTMENT_CANDIDATES with
  | none => Except.error ⟨DEPARTMENT_CANDIDATES⟩
  | some department =>
    match _pick_column cols AMOUNT_CANDIDATES with
    | none => Except.error ⟨AMOUNT_CANDIDATES⟩
    | some amount =>
      match _pick_column cols DATE_CANDIDATES with
      | none => Except.error ⟨DATE_CANDIDATES⟩
      | some date =>
        Except.ok ⟨department, amount, date, _pick_column cols EXPENSE_CANDIDATES⟩

-- ===============================
-- GCP configuration defaults (webapp lines 94-97, process_upload lines 5-7)
-- ===============================

def PROJECT_ID : String := "project-64f58cb2-a1cc-4618-9a0"

def BUCKET_NAME : String := "project-64f58cb2-data-analysis"

def BIGQUERY_DATASET : String := "analysis_dataset"

/-- Fully-qualified BigQuery table id `PROJECT_ID.BIGQUERY_DATASET.name`. -/
def fqName (name : String) : String :=
  PROJECT_ID ++ "." ++ BIGQUERY_DATASET ++ "." ++ name

-- ===============================
-- Report templates (webapp lines 262-319) and Python str.format
-- ===============================

/-- Replace every occurrence of `pat` (non-empty in all uses) in a character
list, scanning left to right; `fuel` bounds the recursion and is always
instantiated with the length of the list. -/
def replaceAux (pat rep : List Char) : Nat → List Char → List Char
  | 0, cs => cs
  | _ + 1, [] => []
  | fuel + 1, c :: cs =>
    if pat ≠ [] ∧ pat.isPrefixOf (c :: cs) then
      rep ++ replaceAux pat rep fuel ((c :: cs).drop pat.length)
    else
      c :: replaceAux pat rep fuel cs

/-- Python `s.replace(pat, rep)` for a non-empty pattern. -/
def replaceStr (s pat rep : String) : String :=
  String.mk (replaceAux pat.data rep.data s.data.length s.data)

structure ReportDef where
  label : String
  sql : String
deriving DecidableEq, Repr

def DEPT_TOTALS_SQL : String :=
  "\n        SELECT {department} AS department, SUM({amount}) AS total_spent\n        FROM `{table_fq}`\n        GROUP BY department\n        ORDER BY total_spent DESC\n        "

def MONTHLY_TREND_SQL : String :=
  "\n        SELECT FORMAT_DATE(\x27%Y-%m\x27, DATE({date})) AS month,\n               SUM({amount}) AS total_spent\n        FROM `{table_fq}`\n        GROUP BY month\n        ORDER BY month\n        "

def TOP_EXPENSE_TYPES_SQL : String :=
  "\n        SELECT {expense_type} AS expense_type, SUM({amount}) AS total_spent\n        FROM `{table_fq}`\n        GROUP BY expense_type\n        ORDER BY total_spent DESC\n        LIMIT 5\n        "

def DEPT_MONTH_MATRIX_SQL : String :=
  "\n        SELECT FORMAT_DATE(\x27%Y-%m\x27, DATE({date})) AS month,\n               {department} AS department,\n               SUM({amount}) AS total_spent\n        FROM `{table_fq}`\n        GROUP BY month, department\n        ORDER BY month, department\n        "

def AVG_MONTHLY_BY_DEPT_SQL : String :=
  "\n        WITH monthly AS (\n          SELECT {department} AS department,\n                 FORMAT_DATE(\x27%Y-%m\x27, DATE({date})) AS month,\n                 SUM({amount}) AS monthly_spent\n          FROM `{table_fq}`\n          GROUP BY department, month\n        )\n        SELECT department, AVG(monthly_spent) AS avg_monthly_spent\n        FROM monthly\n        GROUP BY department\n        ORDER BY avg_monthly_spent DESC\n        "

/-- `REPORTS` (webapp lines 262-319): the fixed, insertion-ordered catalog. -/
def REPORTS : List (String × ReportDef) :=
  [("dept_totals", ⟨"Total spend per department (6 months)", DEPT_TOTALS_SQL⟩),
   ("monthly_trend", ⟨"Monthly spend trend", MONTHLY_TREND_SQL⟩),
   ("top_expense_types", ⟨"Top 5 expense categories", TOP_EXPENSE_TYPES_SQL⟩),
   ("dept_month_matrix", ⟨"Department spend by month", DEPT_MONTH_MATRIX_SQL⟩),
   ("avg_monthly_by_dept", ⟨"Average monthly spend per department", AVG_MONTHLY_BY_DEPT_SQL⟩)]

/-- `meta["sql"].format(table_fq=..., department=..., amount=..., date=...,
expense_type=...)`: Python substitutes the named fields simultaneously; the
sequential replacement below agrees with it whenever the substituted values
contain no placeholder text themselves (always the case for identifiers). -/
def formatReport (sqlT table_fq department amount date expense_type : String) : String :=
  replaceStr (replaceStr (replaceStr (replaceStr (replaceStr sqlT
    "{table_fq}" table_fq)
    "{department}" department)
    "{amount}" amount)
    "{date}" date)
    "{expense_type}" expense_type

/-- The SQL rendered for one report id given resolved columns
(`cols["expense_type"] or "NULL"` as in webapp lines 362-368). -/
def renderedSql (meta : ReportDef) (table_fq : String) (cols : FinanceCols) : String :=
  formatReport meta.sql table_fq cols.department cols.amount cols.date
    (cols.expense_type.getD "NULL")

-- ===============================
-- Warehouse calls and view publishing (webapp lines 331-372)
-- ===============================

/-- The calls the pipeline issues against the warehouse interface. -/
inductive WCall
  | getTable (id : String)
  | query (sql : String)
  | queryJobDest (sql : String) (destination : String)
  | loadJob (tableId : String) (truncate : Bool)
  | createView (viewId : String) (sql : String)
  | updateView (viewId : String) (sql : String)
  | restoreDump (instance_name : String) (gcsPath : String)
deriving DecidableEq, Repr

def WCall.isLoadJob : WCall → Bool
  | .loadJob _ _ => true
  | _ => false

def WCall.isRestore : WCall → Bool
  | .restoreDump _ _ => true
  | _ => false

/-- `_create_or_replace_view` (webapp lines 331-344): update the defining
query when the view exists, create it otherwise.  The view store is a dict
`viewId -> defining sql`. -/
def _create_or_replace_view (store : List (String × String)) (view_id sql : String) :
    List (String × String) × WCall :=
  match getEntry store view_id with
  | some _ => (updEntry store view_id sql, WCall.updateView view_id sql)
  | none => (store ++ [(view_id, sql)], WCall.createView view_id sql)

inductive PublishErr
  | invalidName (msg : String)
  | resolution (e : ResolutionError)
  | viewFailure (view_fq : String) (msg : String)
deriving DecidableEq, Repr

structure PublishOutcome where
  mapping : List (String × String)
  store : List (String × String)
  calls : List WCall
deriving DecidableEq, Repr

/-- The view id derived for one report (webapp lines 360-361):
`PROJECT.DATASET.<table>__<reportId>_v`. -/
def viewFq (t rid : String) : String :=
  fqName (t ++ "__" ++ rid ++ "_v")

/-- The loop body of `publish_looker_views_for_table` (webapp lines 358-371)
over the report catalog.  `createErr` is the warehouse-failure oracle: a
`some msg` models `_create_or_replace_view` raising for that view id, which
the source does not catch, so the whole call aborts with that error. -/
def publishLoop (createErr : String → Option String) (table_fq t : String)
    (cols : FinanceCols) :
    List (String × ReportDef) → List (String × String) → List (String × String) →
    List WCall → Except PublishErr PublishOutcome
  | [], store, acc, calls => Except.ok ⟨acc, store, calls⟩
  | (rid, meta) :: rest, store, acc, calls =>
    let view_fq := viewFq t rid
    let sql := renderedSql meta table_fq cols
    match createErr view_fq with
    | some msg => Except.error (PublishErr.viewFailure view_fq msg)
    | none =>
      let s := _create_or_replace_view store view_fq sql
      publishLoop createErr table_fq t cols rest s.1 (acc ++ [(rid, view_fq)]) (calls ++ [s.2])

/-- `publish_looker_views_for_table` (webapp lines 346-372).  The source reads
the schema of the validated table from the warehouse; here the schema is the
explicit `schema` argument. -/
def publish_looker_views_for_table (createErr : String → Option String)
    (store : List (String × String)) (schema : List String) (table_name : String) :
    Except PublishErr PublishOutcome :=
  match validate_table_name table_name with
  | Except.error m => Except.error (PublishErr.invalidName m)
  | Except.ok t =>
    let table_fq := fqName t
    match _detect_finance_columns schema with
    | Except.error e => Except.error (PublishErr.resolution e)
    | Except.ok cols => publishLoop createErr table_fq t cols REPORTS store [] []

-- ===============================
-- Upload routing pipeline (webapp lines 124-212 and 377-495)
-- ===============================

/-- Index of the last `.` in a character list, if any. -/
def lastDotAux : List Char → Nat → Option Nat → Option Nat
  | [], _, acc => acc
  | c :: rest, i, acc => lastDotAux rest (i + 1) (if c = '.' then some i else acc)

/-- `os.path.splitext` for a bare file name (no path separators): split at the
last dot, unless every character before it is itself a dot (leading dots are
part of the base name, so `".sql"` has no extension). -/
def splitext (p : String) : String × String :=
  let cs := p.data
  match lastDotAux cs 0 none with
  | none => (p, "")
  | some i =>
    if (cs.take i).any (fun c => c ≠ '.') then
      (String.mk (cs.take i), String.mk (cs.drop i))
    else
      (p, "")

/-- `os.path.splitext(filename)[0].replace(" ", "_").lower()` (webapp line 399). -/
def derive_table_name (filename : String) : String :=
  lowerStr (spacesToUnderscores (splitext filename).1)

/-- The observable state the pipeline acts on: object-store paths written,
queue messages published as `(name, bucket)`, warehouse tables as a dict
`tableId -> row count`, and the warehouse calls issued. -/
structure PipelineState where
  gcs : List String
  queue : List (String × String)
  tables : List (String × Nat)
  calls : List WCall
deriving Repr

def emptyState : PipelineState := ⟨[], [], [], []⟩

def persist (st : PipelineState) (path : String) : PipelineState :=
  { st with gcs := st.gcs ++ [path] }

def addCall (st : PipelineState) (c : WCall) : PipelineState :=
  { st with calls := st.calls ++ [c] }

/-- BigQuery write semantics: `WRITE_TRUNCATE` replaces the table content;
when a load job config omits the disposition (as `process_upload` does) the
service default for load jobs is `WRITE_APPEND`. -/
def applyLoad (tables : List (String × Nat)) (tableId : String) (truncate : Bool)
    (rows : Nat) : List (String × Nat) :=
  if truncate then
    updEntry tables tableId rows
  else
    updEntry tables tableId (rows + ((getEntry tables tableId).getD 0))

/-- `load_to_bigquery` (webapp lines 134-177): dispatch on the lower-cased
extension, persist the (possibly converted) artifact under
`uploads/<filename>`, then run a load job with `WRITE_TRUNCATE`.  File content
is abstracted to its row count. -/
def load_to_bigquery (st : PipelineState) (filename table_name : String) (rows : Nat) :
    PipelineState × Except String Unit :=
  let ext := lowerStr (splitext filename).2
  if ext = ".xls" ∨ ext = ".xlsx" ∨ ext = ".csv" ∨ ext = ".json" ∨ ext = ".parquet" then
    let table_id := fqName table_name
    let st := persist st ("uploads/" ++ filename)
    let st := addCall st (WCall.loadJob table_id true)
    let st := { st with tables := applyLoad st.tables table_id true rows }
    (st, Except.ok ())
  else
    (st, Except.error "Unsupported file type. Use CSV, Excel, JSON, or Parquet.")

/-- `run_analysis` (webapp lines 179-212): look the table up (raising
`ValueError` when absent), run `SELECT * ... LIMIT 10`, write the result CSV
to the object store, and write it to the `<table>_analysis` table with
`WRITE_TRUNCATE`.  Note the caller-supplied `table_name` is used as-is; no
call to `validate_table_name` occurs on this path. -/
def run_analysis (st : PipelineState) (table_name : String) :
    PipelineState × Except String String :=
  let fq := fqName table_name
  let st := addCall st (WCall.getTable fq)
  match getEntry st.tables fq with
  | none => (st, Except.error ("BigQuery table " ++ table_name ++ " not found."))
  | some n =>
    let sql := "SELECT * FROM `" ++ fq ++ "` LIMIT 10"
    let st := addCall st (WCall.query sql)
    let st := persist st ("analysis_results/" ++ table_name ++ "_results.csv")
    let dest := fq ++ "_analysis"
    let st := addCall st (WCall.queryJobDest sql dest)
    let st := { st with tables := updEntry st.tables dest (min n 10) }
    (st, Except.ok table_name)

inductive RouteResult
  | ok (table : String)
  | clientError (msg : String)
  | serverError (msg : String)
deriving DecidableEq, Repr

/-- The tail of the `index` POST handler after a tabular load: run the
downstream analysis; a `ValueError` is caught and returned as a 400. -/
def afterLoad (st : PipelineState) (table_name : String) : PipelineState × RouteResult :=
  match run_analysis st table_name with
  | (st, Except.error e) => (st, RouteResult.clientError e)
  | (st, Except.ok t) => (st, RouteResult.ok t)

/-- The POST branch of `index` (webapp lines 384-455): derive and validate the
table name, then dispatch on the lower-cased extension.  `.sql` uploads are
persisted to `uploads/<filename>` and announced on the queue as
`(filename, BUCKET_NAME)`; tabular uploads go through `load_to_bigquery`;
anything else is rejected.  Every successful branch then runs `run_analysis`. -/
def index_post (st : PipelineState) (filename : String) (rows : Nat) :
    PipelineState × RouteResult :=
  if filename = "" then
    (st, RouteResult.clientError "No file selected")
  else
    let file_ext := lowerStr (splitext filename).2
    match validate_table_name (derive_table_name filename) with
    | Except.error e => (st, RouteResult.clientError e)
    | Except.ok table_name =>
      if file_ext = ".sql" then
        let st := persist st ("uploads/" ++ filename)
        let st := { st with queue := st.queue ++ [(filename, BUCKET_NAME)] }
        afterLoad st table_name
      else if file_ext = ".xlsx" ∨ file_ext = ".xls" then
        match load_to_bigquery st (table_name ++ ".csv") table_name rows with
        | (st, Except.error e) => (st, RouteResult.clientError e)
        | (st, Except.ok _) => afterLoad st table_name
      else if file_ext = ".csv" ∨ file_ext = ".json" ∨ file_ext = ".parquet" then
        match load_to_bigquery st filename table_name rows with
        | (st, Except.error e) => (st, RouteResult.clientError e)
        | (st, Except.ok _) => afterLoad st table_name
      else
        (st, RouteResult.clientError "Unsupported file format. Supported: CSV, Excel, JSON, Parquet, SQL")

/-- The `/download_bq` route (webapp lines 472-495): the raw `?table` request
argument is passed to `run_analysis` and then interpolated into a final
`SELECT` with no validation anywhere on the path. -/
def download_bq (st : PipelineState) (tableArg : Option String) :
    PipelineState × RouteResult :=
  match tableArg with
  | none => (st, RouteResult.clientError "Missing ?table parameter.")
  | some table_name =>
    match run_analysis st table_name with
    | (st, Except.error e) => (st, RouteResult.clientError e)
    | (st, Except.ok _) =>
      let sql := "SELECT * FROM `" ++ fqName table_name ++ "_analysis`"
      let st := addCall st (WCall.query sql)
      (st, RouteResult.ok table_name)

/-- `process_upload` (functions/process_upload lines 13-30), triggered by a
storage event: `.csv`/`.json` objects are loaded into
`PROJECT.DATASET.<name with dots replaced>` by a job whose config omits the
write disposition (hence `WRITE_APPEND`); `.sql` objects produce exactly one
queue message `(name, bucket)`; anything else is ignored. -/
def process_upload (st : PipelineState) (file_name bucket_name : String) (rows : Nat) :
    PipelineState :=
  if endsWithStr file_name ".csv" ∨ endsWithStr file_name ".json" then
    let table_id := fqName (dotsToUnderscores file_name)
    let st := addCall st (WCall.loadJob table_id false)
    { st with tables := applyLoad st.tables table_id false rows }
  else if endsWithStr file_name ".sql" then
    { st with queue := st.queue ++ [(file_name, bucket_name)] }
  else
    st

-- ===============================
-- Restore worker (functions/import_sql_to_cloudsql lines 12-34)
-- ===============================

inductive WorkerOutcome
  | skipped (name : String)
  | completed (name : String)
  | failedLogged (name : String)
  | crashed (msg : String)
deriving DecidableEq, Repr

def INSTANCE_NAME : String := "data-analysis-db"

/-- `import_sql`: decode `(name, bucket)` from the message (`dict.get`, so a
missing field is `none`, and calling `.endswith` on it raises
`AttributeError`), skip names without a `.sql` suffix, otherwise run the
`gcloud sql import sql` restore; a `CalledProcessError` is caught and logged.
Returns the outcome together with the restore attempts made;
`WorkerOutcome.crashed` is the only outcome that re-raises (and with
ack-on-return queue semantics the only one that requeues the message). -/
def import_sql (name : Option String) (bucket : Option String) (restoreOk : Bool) :
    WorkerOutcome × List String :=
  match name with
  | none => (WorkerOutcome.crashed "AttributeError: NoneType object has no attribute endswith", [])
  | some n =>
    if endsWithStr n ".sql" then
      let gcs_path := "gs://" ++ bucket.getD "None" ++ "/" ++ n
      if restoreOk then
        (WorkerOutcome.completed n, [gcs_path])
      else
        (WorkerOutcome.failedLogged n, [gcs_path])
    else
      (WorkerOutcome.skipped n, [])

/-- Whether an outcome re-raises out of the handler (nack / requeue). -/
def WorkerOutcome.raisesOut : WorkerOutcome → Bool
  | .crashed _ => true
  | _ => false

-- ===============================
-- Lemmas: dict operations
-- ===============================

theorem getEntry_nil {α : Type} (k : String) : getEntry ([] : List (String × α)) k = none := rfl

theorem find?_map_upd_self {α : Type} (d : List (String × α)) (k : String) (v : α)
    (hany : d.any (fun p => decide (p.1 = k)) = true) :
    List.find? (fun p => decide (p.1 = k))
      (d.map (fun p => if p.1 = k then (k, v) else p)) = some (k, v) := by
  induction d with
  | nil => simp at hany
  | cons p d ih =>
    by_cases hp : p.1 = k
    · simp [List.find?_cons, hp]
    · have hd : (decide (p.1 = k)) = false := by simp [hp]
      have hany' : d.any (fun p => decide (p.1 = k)) = true := by
        simpa [List.any_cons, hd] using hany
      simp only [List.map_cons, if_neg hp, List.find?_cons, hd]
      exact ih hany'

theorem find?_map_upd_ne {α : Type} (d : List (String × α)) (k k' : String) (v : α)
    (h : k' ≠ k) :
    List.find? (fun p => decide (p.1 = k'))
      (d.map (fun p => if p.1 = k then (k, v) else p)) =
      List.find? (fun p => decide (p.1 = k')) d := by
  induction d with
  | nil => rfl
  | cons p d ih =>
    by_cases hp : p.1 = k
    · have h1 : (decide ((k, v).1 = k')) = false := by
        simp only [decide_eq_false_iff_not]
        exact fun hk => h hk.symm
      have h2 : (decide (p.1 = k')) = false := by
        simp only [decide_eq_false_iff_not]
        rw [hp]; exact fun hk => h hk.symm
      simp only [List.map_cons, if_pos hp, List.find?_cons, h1, h2]
      exact ih
    · simp only [List.map_cons, if_neg hp, List.find?_cons]
      cases hpk : (decide (p.1 = k')) with
      | true => rfl
      | false => exact ih

theorem getEntry_updEntry_self {α : Type} (d : List (String × α)) (k : String) (v : α) :
    getEntry (updEntry d k v) k = some v := by
  unfold updEntry
  split
  · next hany =>
    unfold getEntry
    rw [find?_map_upd_self d k v hany]
    rfl
  · next hany =>
    unfold getEntry
    have hnone : List.find? (fun p => decide (p.1 = k)) d = none := by
      rw [List.find?_eq_none]
      intro x hx
      simp only [decide_eq_true_eq]
      intro hxk
      exact hany (List.any_eq_true.mpr ⟨x, hx, by simp [hxk]⟩)
    rw [List.find?_append, hnone]
    simp [List.find?_cons]

theorem getEntry_updEntry_ne {α : Type} (d : List (String × α)) (k k' : String) (v : α)
    (h : k' ≠ k) : getEntry (updEntry d k v) k' = getEntry d k' := by
  unfold updEntry
  split
  · unfold getEntry
    rw [find?_map_upd_ne d k k' v h]
  · unfold getEntry
    have h1 : List.find? (fun p => decide (p.1 = k')) [(k, v)] = none := by
      have : (decide ((k, v).1 = k')) = false := by
        simp only [decide_eq_false_iff_not]
        exact fun hk => h hk.symm
      simp [List.find?_cons, this]
    rw [List.find?_append, h1, Option.or_none]

theorem getLast?_or_cons {α : Type} (a : α) (l : List α) :
    (l.getLast?).or (some a) = (a :: l).getLast? := by
  cases l with
  | nil => rfl
  | cons b bs =>
    rw [List.getLast?_cons_cons,
      List.getLast?_eq_getLast_of_ne_nil (l := b :: bs) (List.cons_ne_nil _ _)]
    rfl

theorem cols_get_foldl (schema : List String) (d : List (String × String)) (k : String) :
    getEntry (schema.foldl (fun out f => updEntry out (lowerStr f) f) d) k =
      ((schema.filter (fun f => lowerStr f = k)).getLast?).or (getEntry d k) := by
  induction schema generalizing d with
  | nil => simp
  | cons f fs ih =>
    simp only [List.foldl_cons, List.filter_cons]
    rw [ih]
    by_cases hf : lowerStr f = k
    · subst hf
      rw [getEntry_updEntry_self, getLast?_or_cons,
        if_pos (by simp : (decide (lowerStr f = lowerStr f)) = true),
        List.getLast?_eq_getLast_of_ne_nil (List.cons_ne_nil _ _)]
      rfl
    · rw [getEntry_updEntry_ne d (lowerStr f) k f (fun hk => hf hk.symm)]
      simp [hf]

/-- The schema dict lookup is the **last** column of the schema whose
lower-casing equals the key (Python dict assignment overwrites in schema
order). -/
theorem cols_get_eq (schema : List String) (k : String) :
    getEntry (_table_schema_cols schema) k =
      (schema.filter (fun f => lowerStr f = k)).getLast? := by
  unfold _table_schema_cols
  rw [cols_get_foldl, getEntry_nil, Option.or_none]

/-- A value stored in the schema dict is a column of the schema, and its
lower-casing is its key. -/
theorem cols_get_mem {schema : List String} {k v : String}
    (h : getEntry (_table_schema_cols schema) k = some v) :
    v ∈ schema ∧ lowerStr v = k := by
  rw [cols_get_eq] at h
  have hv : v ∈ schema.filter (fun f => lowerStr f = k) := by
    rcases List.mem_getLast?_eq_getLast (Option.mem_def.mpr h) with ⟨hne, hlast⟩
    rw [hlast]
    exact List.getLast_mem hne
  rw [List.mem_filter] at hv
  exact ⟨hv.1, by simpa using hv.2⟩

-- ===============================
-- Lemmas: column picking
-- ===============================

theorem findSome?_some_spec {α β : Type} (f : α → Option β) (l : List α) (v : β)
    (h : l.findSome? f = some v) :
    ∃ i, ∃ hi : i < l.length, f (l.get ⟨i, hi⟩) = some v ∧
      ∀ j, (hj : j < i) → f (l.get ⟨j, Nat.lt_trans hj hi⟩) = none := by
  induction l with
  | nil => simp [List.findSome?] at h
  | cons a l ih =>
    rw [List.findSome?_cons] at h
    cases hfa : f a with
    | some b =>
      rw [hfa] at h
      refine ⟨0, by simp, ?_, ?_⟩
      · simpa [hfa] using h
      · intro j hj
        exact absurd hj (Nat.not_lt_zero j)
    | none =>
      rw [hfa] at h
      obtain ⟨i, hi, h1, h2⟩ := ih h
      refine ⟨i + 1, Nat.succ_lt_succ hi, h1, ?_⟩
      intro j hj
      cases j with
      | zero => exact hfa
      | succ j' => exact h2 j' (Nat.lt_of_succ_lt_succ hj)

/-- `v` is the column resolved for a candidate list: it is a column of the
schema, and it is found at the **first** candidate (in list order) whose
lower-casing is present in the schema dict; all earlier candidates are
absent. -/
def roleFirstMatch (schema cands : List String) (v : String) : Prop :=
  v ∈ schema ∧ ∃ i, ∃ hi : i < cands.length,
    lowerStr v = lowerStr (cands.get ⟨i, hi⟩) ∧
    getEntry (_table_schema_cols schema) (lowerStr (cands.get ⟨i, hi⟩)) = some v ∧
    ∀ j, (hj : j < i) →
      getEntry (_table_schema_cols schema) (lowerStr (cands.get ⟨j, Nat.lt_trans hj hi⟩)) = none

theorem pick_firstMatch {schema cands : List String} {v : String}
    (h : _pick_column (_table_schema_cols schema) cands = some v) :
    roleFirstMatch schema cands v := by
  obtain ⟨i, hi, h1, h2⟩ := findSome?_some_spec _ cands v h
  exact ⟨(cols_get_mem h1).1, i, hi, (cols_get_mem h1).2, h1, h2⟩

theorem pick_eq_none_iff {cols : List (String × String)} {cands : List String} :
    _pick_column cols cands = none ↔ ∀ c ∈ cands, getEntry cols (lowerStr c) = none :=
  List.findSome?_eq_none_iff

theorem detect_ok_picks {schema : List String} {m : FinanceCols}
    (h : _detect_finance_columns schema = Except.ok m) :
    _pick_column (_table_schema_cols schema) DEPARTMENT_CANDIDATES = some m.department ∧
    _pick_column (_table_schema_cols schema) AMOUNT_CANDIDATES = some m.amount ∧
    _pick_column (_table_schema_cols schema) DATE_CANDIDATES = some m.date ∧
    _pick_column (_table_schema_cols schema) EXPENSE_CANDIDATES = m.expense_type := by
  simp only [_detect_finance_columns] at h
  split at h
  · exact Except.noConfusion h
  · rename_i d hd
    split at h
    · exact Except.noConfusion h
    · rename_i a ha
      split at h
      · exact Except.noConfusion h
      · rename_i dt hdt
        cases h
        exact ⟨hd, ha, hdt, rfl⟩

-- ===============================
-- Lemmas: casing invariance
-- ===============================

theorem cols_get_lower (schema : List String) (k : String) :
    (getEntry (_table_schema_cols schema) k).map lowerStr =
      ((schema.map lowerStr).filter (fun g => g = k)).getLast? := by
  rw [cols_get_eq, ← List.getLast?_map, List.filter_map]
  rfl

theorem cols_get_congr {s1 s2 : List String} (h : s1.map lowerStr = s2.map lowerStr)
    (k : String) :
    (getEntry (_table_schema_cols s1) k).map lowerStr =
      (getEntry (_table_schema_cols s2) k).map lowerStr := by
  rw [cols_get_lower, cols_get_lower, h]

theorem pick_lower_congr {s1 s2 : List String} (h : s1.map lowerStr = s2.map lowerStr)
    (cands : List String) :
    (_pick_column (_table_schema_cols s1) cands).map lowerStr =
      (_pick_column (_table_schema_cols s2) cands).map lowerStr := by
  induction cands with
  | nil => rfl
  | cons c cs ih =>
    unfold _pick_column at *
    rw [List.findSome?_cons, List.findSome?_cons]
    have hc := cols_get_congr h (lowerStr c)
    cases h1 : getEntry (_table_schema_cols s1) (lowerStr c) with
    | some v1 =>
      cases h2 : getEntry (_table_schema_cols s2) (lowerStr c) with
      | some v2 =>
        rw [h1, h2] at hc
        simpa using hc
      | none => rw [h1, h2] at hc; cases hc
    | none =>
      cases h2 : getEntry (_table_schema_cols s2) (lowerStr c) with
      | some v2 => rw [h1, h2] at hc; cases hc
      | none => exact ih

/-- Lower-case every resolved column of a role map. -/
def lowerFin (m : FinanceCols) : FinanceCols :=
  ⟨lowerStr m.department, lowerStr m.amount, lowerStr m.date, m.expense_type.map lowerStr⟩

theorem detect_lower_congr {s1 s2 : List String} (h : s1.map lowerStr = s2.map lowerStr) :
    (_detect_finance_columns s1).map lowerFin =
      (_detect_finance_columns s2).map lowerFin := by
  simp only [_detect_finance_columns]
  have hd := pick_lower_congr h DEPARTMENT_CANDIDATES
  have ha := pick_lower_congr h AMOUNT_CANDIDATES
  have hdt := pick_lower_congr h DATE_CANDIDATES
  have he := pick_lower_congr h EXPENSE_CANDIDATES
  cases h1 : _pick_column (_table_schema_cols s1) DEPARTMENT_CANDIDATES with
  | none =>
    cases h2 : _pick_column (_table_schema_cols s2) DEPARTMENT_CANDIDATES with
    | none => rfl
    | some v2 => rw [h1, h2] at hd; cases hd
  | some d1 =>
    cases h2 : _pick_column (_table_schema_cols s2) DEPARTMENT_CANDIDATES with
    | none => rw [h1, h2] at hd; cases hd
    | some d2 =>
      rw [h1, h2] at hd
      cases h3 : _pick_column (_table_schema_cols s1) AMOUNT_CANDIDATES with
      | none =>
        cases h4 : _pick_column (_table_schema_cols s2) AMOUNT_CANDIDATES with
        | none => rfl
        | some a2 => rw [h3, h4] at ha; cases ha
      | some a1 =>
        cases h4 : _pick_column (_table_schema_cols s2) AMOUNT_CANDIDATES with
        | none => rw [h3, h4] at ha; cases ha
        | some a2 =>
          rw [h3, h4] at ha
          cases h5 : _pick_column (_table_schema_cols s1) DATE_CANDIDATES with
          | none =>
            cases h6 : _pick_column (_table_schema_cols s2) DATE_CANDIDATES with
            | none => rfl
            | some t2 => rw [h5, h6] at hdt; cases hdt
          | some t1 =>
            cases h6 : _pick_column (_table_schema_cols s2) DATE_CANDIDATES with
            | none => rw [h5, h6] at hdt; cases hdt
            | some t2 =>
              rw [h5, h6] at hdt
              simp only [Except.map, lowerFin]
              simp only [Option.map_some', Option.some.injEq] at hd ha hdt
              rw [hd, ha, hdt, he]

-- ===============================
-- Claim theorems: validator and identifier hygiene (C1, C2)
-- ===============================

/-- C1: the claim states the validator accepts exactly the strings matching
`^[a-zA-Z0-9_]\x7b1,128\x7d$` (end-of-string anchors) that are not reserved
keywords, and rejects every string containing any other character.  The code
uses Python `re.match`, whose `$` also matches just before one trailing
newline, so `"abc\n"` — which contains a character outside the class and does
not match the regex under end-of-string semantics — is returned unchanged;
likewise `"select\n"` is accepted although `select` is a reserved keyword in a
different casing.  This theorem evaluates the embedded validator at both
failing inputs. -/
theorem C1_validator_trailing_newline :
    validate_table_name "abc\n" = Except.ok "abc\n" ∧
    specMatchesIdent "abc\n" = false ∧
    validate_table_name "select\n" = Except.ok "select\n" ∧
    upperStr "select" = "SELECT" ∧ "SELECT" ∈ SQL_KEYWORDS := by decide

/-- C2: the claim states every caller-supplied table name passes
`validate_table_name` before being interpolated into generated SQL, and that
no raw user identifier reaches the warehouse interface unvalidated.  On the
`/download_bq` route the raw `?table` argument flows into `run_analysis`,
which calls `get_table` with it and interpolates it into a `SELECT` without
any validation: for the argument `"evil`name"` (rejected by the validator)
the pipeline still issues a `getTable` call carrying the raw name, and — when
the table exists — a query whose SQL text embeds it. -/
theorem C2_unvalidated_identifier :
    validate_table_name "evil`name" =
      Except.error "Invalid table name. Only letters, numbers, and underscores allowed (max 128 chars)" ∧
    WCall.getTable (fqName "evil`name") ∈
      ((download_bq emptyState (some "evil`name")).1).calls ∧
    WCall.query ("SELECT * FROM `" ++ fqName "evil`name" ++ "` LIMIT 10") ∈
      ((download_bq { emptyState with tables := [(fqName "evil`name", 7)] }
        (some "evil`name")).1).calls := by decide

-- ===============================
-- Claim theorems: column role resolution (C3, C4, C10)
-- ===============================

/-- C3: for every schema on which resolution succeeds, each role is resolved
to a column of the schema found at the first candidate (in the fixed ordered
candidate lists baked into `_detect_finance_columns`) whose lower-casing is
present, preserving the casing stored in the schema dict; and resolution is
invariant under re-casing the schema (schemas that agree after lower-casing
resolve to the same roles up to lower-casing, with identical errors). -/
theorem C3_role_resolution (schema schema' : List String) :
    (∀ m : FinanceCols, _detect_finance_columns schema = Except.ok m →
      roleFirstMatch schema DEPARTMENT_CANDIDATES m.department ∧
      roleFirstMatch schema AMOUNT_CANDIDATES m.amount ∧
      roleFirstMatch schema DATE_CANDIDATES m.date ∧
      (∀ e, m.expense_type = some e → roleFirstMatch schema EXPENSE_CANDIDATES e) ∧
      (m.expense_type = none →
        ∀ c ∈ EXPENSE_CANDIDATES, getEntry (_table_schema_cols schema) (lowerStr c) = none)) ∧
    (schema.map lowerStr = schema'.map lowerStr →
      (_detect_finance_columns schema).map lowerFin =
        (_detect_finance_columns schema').map lowerFin) := by
  constructor
  · intro m hm
    obtain ⟨hd, ha, hdt, he⟩ := detect_ok_picks hm
    refine ⟨pick_firstMatch hd, pick_firstMatch ha, pick_firstMatch hdt, ?_, ?_⟩
    · intro e hee
      exact pick_firstMatch (he.trans hee)
    · intro hen
      exact pick_eq_none_iff.mp (he.trans hen)
  · exact detect_lower_congr

/-- Witness for C3 at a concrete schema: `Department` resolves with its
original casing, and re-casing the whole schema leaves resolution unchanged
up to lower-casing. -/
theorem C3_role_resolution_witness :
    roleFirstMatch ["Department", "Amount", "Txn_Date"] DEPARTMENT_CANDIDATES "Department" ∧
    (_detect_finance_columns ["Department", "Amount", "Txn_Date"]).map lowerFin =
      (_detect_finance_columns ["DEPARTMENT", "AMOUNT", "TXN_DATE"]).map lowerFin := by
  refine ⟨?_, ?_⟩
  · exact ((C3_role_resolution ["Department", "Amount", "Txn_Date"]
      ["DEPARTMENT", "AMOUNT", "TXN_DATE"]).1
      ⟨"Department", "Amount", "Txn_Date", none⟩ (by decide)).1
  · exact (C3_role_resolution ["Department", "Amount", "Txn_Date"]
      ["DEPARTMENT", "AMOUNT", "TXN_DATE"]).2 (by decide)

/-- A role has no matching column in the schema. -/
@[reducible] def roleMissing (schema cands : List String) : Prop :=
  ∀ c ∈ cands, getEntry (_table_schema_cols schema) (lowerStr c) = none

/-- C4: whenever a required role (department, amount or date) has no candidate
column in the schema, resolution fails with a `ResolutionError` carrying the
attempted candidate list of a missing required role; the reported list names
the role as its head element (`department`/`amount`/`date`). -/
theorem C4_resolution_failure (schema : List String)
    (h : roleMissing schema DEPARTMENT_CANDIDATES ∨ roleMissing schema AMOUNT_CANDIDATES ∨
      roleMissing schema DATE_CANDIDATES) :
    ∃ e : ResolutionError, _detect_finance_columns schema = Except.error e ∧
      ((e.candidates = DEPARTMENT_CANDIDATES ∧ roleMissing schema DEPARTMENT_CANDIDATES ∧
          e.candidates.head? = some "department") ∨
       (e.candidates = AMOUNT_CANDIDATES ∧ roleMissing schema AMOUNT_CANDIDATES ∧
          e.candidates.head? = some "amount") ∨
       (e.candidates = DATE_CANDIDATES ∧ roleMissing schema DATE_CANDIDATES ∧
          e.candidates.head? = some "date")) := by
  cases h1 : _pick_column (_table_schema_cols schema) DEPARTMENT_CANDIDATES with
  | none =>
    refine ⟨⟨DEPARTMENT_CANDIDATES⟩, ?_, Or.inl ⟨rfl, pick_eq_none_iff.mp h1, rfl⟩⟩
    simp only [_detect_finance_columns]
    rw [h1]
  | some d =>
    have hdp : ¬ roleMissing schema DEPARTMENT_CANDIDATES := by
      intro hm
      rw [pick_eq_none_iff.mpr hm] at h1
      cases h1
    cases h2 : _pick_column (_table_schema_cols schema) AMOUNT_CANDIDATES with
    | none =>
      refine ⟨⟨AMOUNT_CANDIDATES⟩, ?_, Or.inr (Or.inl ⟨rfl, pick_eq_none_iff.mp h2, rfl⟩)⟩
      simp only [_detect_finance_columns]
      rw [h1, h2]
    | some a =>
      have hap : ¬ roleMissing schema AMOUNT_CANDIDATES := by
        intro hm
        rw [pick_eq_none_iff.mpr hm] at h2
        cases h2
      cases h3 : _pick_column (_table_schema_cols schema) DATE_CANDIDATES with
      | none =>
        refine ⟨⟨DATE_CANDIDATES⟩, ?_, Or.inr (Or.inr ⟨rfl, pick_eq_none_iff.mp h3, rfl⟩)⟩
        simp only [_detect_finance_columns]
        rw [h1, h2, h3]
      | some dt =>
        exfalso
        rcases h with hm | hm | hm
        · exact hdp hm
        · exact hap hm
        · rw [pick_eq_none_iff.mpr hm] at h3
          cases h3

/-- Witness for C4: the example schema from the spec; department is missing and
the failure reports the department candidate list. -/
theorem C4_resolution_failure_witness :
    ∃ e : ResolutionError,
      _detect_finance_columns ["region", "value", "period", "category"] = Except.error e ∧
      ((e.candidates = DEPARTMENT_CANDIDATES ∧
          roleMissing ["region", "value", "period", "category"] DEPARTMENT_CANDIDATES ∧
          e.candidates.head? = some "department") ∨
       (e.candidates = AMOUNT_CANDIDATES ∧
          roleMissing ["region", "value", "period", "category"] AMOUNT_CANDIDATES ∧
          e.candidates.head? = some "amount") ∨
       (e.candidates = DATE_CANDIDATES ∧
          roleMissing ["region", "value", "period", "category"] DATE_CANDIDATES ∧
          e.candidates.head? = some "date")) :=
  C4_resolution_failure ["region", "value", "period", "category"] (Or.inl (by decide))

/-- C10: when two columns of a schema differ only in letter case, the schema
dict keeps the later one (Python dict assignment overwrites), so lookups and
hence role resolution return the original casing of the **last**
case-colliding column. -/
theorem C10_case_collision (s1 s2 s3 : List String) (c1 c2 : String)
    (hcase : lowerStr c1 = lowerStr c2)
    (hlast : ∀ c ∈ s3, lowerStr c ≠ lowerStr c2) :
    getEntry (_table_schema_cols (s1 ++ c1 :: (s2 ++ c2 :: s3))) (lowerStr c1) = some c2 ∧
    (∀ (cands1 cands2 : List String) (cand : String), lowerStr cand = lowerStr c2 →
      (∀ c ∈ cands1,
        getEntry (_table_schema_cols (s1 ++ c1 :: (s2 ++ c2 :: s3))) (lowerStr c) = none) →
      _pick_column (_table_schema_cols (s1 ++ c1 :: (s2 ++ c2 :: s3)))
        (cands1 ++ cand :: cands2) = some c2) := by
  have hget : getEntry (_table_schema_cols (s1 ++ c1 :: (s2 ++ c2 :: s3))) (lowerStr c2)
      = some c2 := by
    rw [cols_get_eq]
    have hassoc : s1 ++ c1 :: (s2 ++ c2 :: s3) = (s1 ++ c1 :: s2) ++ c2 :: s3 := by
      simp
    have hfil3 : List.filter (fun f => decide (lowerStr f = lowerStr c2)) s3 = [] :=
      List.filter_eq_nil_iff.mpr (fun a ha => by simp [hlast a ha])
    rw [hassoc, List.filter_append, List.filter_cons,
      if_pos (by simp : (decide (lowerStr c2 = lowerStr c2)) = true),
      hfil3, List.getLast?_append_cons]
    rfl
  refine ⟨by rw [hcase]; exact hget, ?_⟩
  intro cands1 cands2 cand hcand hmiss
  unfold _pick_column
  rw [List.findSome?_append,
    List.findSome?_eq_none_iff.mpr (by intro c hc; exact hmiss c hc),
    List.findSome?_cons, hcand, hget]
  rfl

/-- Witness for C10: schema `[Department, DEPARTMENT]`; the dict and the
department-role pick both return the later casing `DEPARTMENT`. -/
theorem C10_case_collision_witness :
    getEntry (_table_schema_cols ["Department", "DEPARTMENT"]) (lowerStr "Department") =
      some "DEPARTMENT" ∧
    _pick_column (_table_schema_cols ["Department", "DEPARTMENT"]) ["department"] =
      some "DEPARTMENT" := by
  have h := C10_case_collision [] [] [] "Department" "DEPARTMENT" (by decide)
    (by intro c hc; cases hc)
  exact ⟨h.1, h.2 [] [] "department" (by decide) (by intro c hc; cases hc)⟩

-- ===============================
-- Lemmas: run_analysis state invariants
-- ===============================

theorem run_analysis_queue (st : PipelineState) (t : String) :
    ((run_analysis st t).1).queue = st.queue := by
  simp only [run_analysis]
  split <;> rfl

theorem run_analysis_gcs_mem (st : PipelineState) (t p : String) (hp : p ∈ st.gcs) :
    p ∈ ((run_analysis st t).1).gcs := by
  simp only [run_analysis]
  split
  · exact hp
  · exact List.mem_append_left _ hp

theorem run_analysis_countP (st : PipelineState) (t : String) (pr : WCall → Bool)
    (h1 : ∀ id, pr (WCall.getTable id) = false)
    (h2 : ∀ sql, pr (WCall.query sql) = false)
    (h3 : ∀ sql d, pr (WCall.queryJobDest sql d) = false) :
    List.countP pr ((run_analysis st t).1).calls = List.countP pr st.calls := by
  simp only [run_analysis]
  split
  · simp [addCall, persist, List.countP_append, List.countP_cons, h1]
  · simp [addCall, persist, List.countP_append, List.countP_cons, h1, h2, h3]

theorem afterLoad_fst (st : PipelineState) (t : String) :
    (afterLoad st t).1 = (run_analysis st t).1 := by
  unfold afterLoad
  rcases hr : run_analysis st t with ⟨st', r⟩
  cases r <;> rfl

-- ===============================
-- Claim theorems: .sql routing (C5)
-- ===============================

/-- C5 counterexample: the claim quantifies over **every** upload whose
filename ends in `.sql` and asserts exactly one queue message is published
and the artifact is persisted.  For `my-file.sql` the derived table name
`my-file` fails `validate_table_name` (hyphen), so the handler rejects the
upload before the `.sql` branch: nothing is persisted and no message is
published. -/
theorem C5_invalid_stem_counterexample :
    endsWithStr "my-file.sql" ".sql" = true ∧
    ((index_post emptyState "my-file.sql" 0).1).queue = [] ∧
    ((index_post emptyState "my-file.sql" 0).1).gcs = [] := by decide

/-- C5 as amended: for every `.sql` upload whose derived table name passes the
validator, the web handler persists the artifact to `uploads/<filename>`,
publishes exactly one `(name, bucket)` queue message, performs no warehouse
load and no restore in the request path; and the storage-triggered
`process_upload` function likewise turns a `.sql` object into exactly one
queue message with no load. -/
theorem C5_sql_routing (st : PipelineState) (filename : String) (rows : Nat) (t : String)
    (hext : lowerStr (splitext filename).2 = ".sql")
    (hval : validate_table_name (derive_table_name filename) = Except.ok t) :
    ((index_post st filename rows).1).queue = st.queue ++ [(filename, BUCKET_NAME)] ∧
    ("uploads/" ++ filename) ∈ ((index_post st filename rows).1).gcs ∧
    List.countP WCall.isLoadJob ((index_post st filename rows).1).calls =
      List.countP WCall.isLoadJob st.calls ∧
    List.countP WCall.isRestore ((index_post st filename rows).1).calls =
      List.countP WCall.isRestore st.calls ∧
    (∀ (st2 : PipelineState) (name bucket : String) (r : Nat),
      endsWithStr name ".sql" = true → endsWithStr name ".csv" = false →
      endsWithStr name ".json" = false →
      (process_upload st2 name bucket r).queue = st2.queue ++ [(name, bucket)] ∧
      (process_upload st2 name bucket r).tables = st2.tables ∧
      List.countP WCall.isLoadJob (process_upload st2 name bucket r).calls =
        List.countP WCall.isLoadJob st2.calls) := by
  have hne : filename ≠ "" := by
    intro h
    subst h
    exact absurd hext (by decide)
  have hred : (index_post st filename rows).1 =
      (run_analysis (PipelineState.mk (st.gcs ++ ["uploads/" ++ filename])
        (st.queue ++ [(filename, BUCKET_NAME)]) st.tables st.calls) t).1 := by
    rw [← afterLoad_fst]
    simp only [index_post, if_neg hne, hval, hext]
    rw [if_pos trivial]
    rfl
  refine ⟨?_, ?_, ?_, ?_, ?_⟩
  · rw [hred, run_analysis_queue]
  · rw [hred]
    exact run_analysis_gcs_mem _ t _ (List.mem_append_right _ (by simp))
  · rw [hred, run_analysis_countP] <;> intros <;> rfl
  · rw [hred, run_analysis_countP] <;> intros <;> rfl
  · intro st2 name bucket r hsql hcsv hjson
    have hc1 : ¬ (endsWithStr name ".csv" = true ∨ endsWithStr name ".json" = true) := by
      simp [hcsv, hjson]
    simp only [process_upload, if_neg hc1, if_pos hsql]
    exact ⟨trivial, trivial, trivial⟩

/-- Witness for C5 as amended: the concrete upload `backup.sql` and the
concrete storage object `dump.sql`. -/
theorem C5_sql_routing_witness :
    ((index_post emptyState "backup.sql" 0).1).queue =
      emptyState.queue ++ [("backup.sql", BUCKET_NAME)] ∧
    ("uploads/" ++ "backup.sql") ∈ ((index_post emptyState "backup.sql" 0).1).gcs ∧
    (process_upload emptyState "dump.sql" "some-bucket" 1).queue =
      emptyState.queue ++ [("dump.sql", "some-bucket")] := by
  have h := C5_sql_routing emptyState "backup.sql" 0 "backup" (by decide) (by decide)
  exact ⟨h.1, h.2.1,
    (h.2.2.2.2 emptyState "dump.sql" "some-bucket" 1 (by decide) (by decide) (by decide)).1⟩

-- ===============================
-- Claim theorems: replace semantics (C6)
-- ===============================

/-- C6 counterexample: the claim asserts every load path uses truncate-replace
semantics, citing `process_upload` among its sources.  `process_upload`
builds its `LoadJobConfig` without a `write_disposition`, so BigQuery applies
the load-job default `WRITE_APPEND`: after uploading `sales.csv` with 2 rows
and again with 3 rows through the storage-triggered function, the target
table holds 5 rows, not the 3 rows of the second file. -/
theorem C6_process_upload_append_counterexample :
    getEntry ((process_upload (process_upload emptyState "sales.csv" BUCKET_NAME 2)
        "sales.csv" BUCKET_NAME 3).tables)
      (fqName (dotsToUnderscores "sales.csv")) = some 5 ∧ (5 : Nat) ≠ 3 := by decide

/-- C6 as amended: the web app load path (`load_to_bigquery`, used by the
upload handler) does use `WRITE_TRUNCATE` keyed by the derived table name:
uploading `sales.csv` twice through the web handler leaves exactly one
`sales` table entry whose row count is that of the second upload; the
storage-triggered `process_upload` path instead appends (BigQuery default
when the disposition is omitted). -/
theorem C6_webapp_replace (r1 r2 : Nat) :
    getEntry ((index_post (index_post emptyState "sales.csv" r1).1 "sales.csv" r2).1).tables
      (fqName "sales") = some r2 ∧
    List.countP (fun p => decide (p.1 = fqName "sales"))
      ((index_post (index_post emptyState "sales.csv" r1).1 "sales.csv" r2).1).tables = 1 := by
  exact ⟨rfl, rfl⟩

/-- Witness for C6 as amended at concrete row counts. -/
theorem C6_webapp_replace_witness :
    getEntry ((index_post (index_post emptyState "sales.csv" 2).1 "sales.csv" 3).1).tables
      (fqName "sales") = some 3 :=
  (C6_webapp_replace 2 3).1

-- ===============================
-- Lemmas: string cancellation and view-name injectivity
-- ===============================

theorem strAppend_left_cancel {s a b : String} (h : s ++ a = s ++ b) : a = b := by
  apply String.ext
  have hd := congrArg String.data h
  rw [String.data_append, String.data_append] at hd
  exact List.append_cancel_left hd

theorem strAppend_right_cancel {a b s : String} (h : a ++ s = b ++ s) : a = b := by
  apply String.ext
  have hd := congrArg String.data h
  rw [String.data_append, String.data_append] at hd
  exact List.append_cancel_right hd

theorem viewFq_inj {t rid rid' : String} (h : viewFq t rid = viewFq t rid') : rid = rid' := by
  unfold viewFq fqName at h
  exact strAppend_left_cancel (strAppend_right_cancel (strAppend_left_cancel h))

-- ===============================
-- Lemmas: create-or-replace on the view store
-- ===============================

theorem create_or_replace_fst (store : List (String × String)) (k v : String) :
    (_create_or_replace_view store k v).1 = updEntry store k v := by
  unfold _create_or_replace_view
  cases hg : getEntry store k with
  | some w => simp only [hg]
  | none =>
    simp only [hg]
    unfold updEntry
    have hnot : ¬ (store.any (fun p => decide (p.1 = k)) = true) := by
      intro hany
      obtain ⟨p, hp, hpk⟩ := List.any_eq_true.mp hany
      unfold getEntry at hg
      rw [Option.map_eq_none'] at hg
      exact (List.find?_eq_none.mp hg p hp) hpk
    rw [if_neg hnot]

theorem keysNodup_updEntry {α : Type} (d : List (String × α)) (k : String) (v : α)
    (h : keysNodup d) : keysNodup (updEntry d k v) := by
  unfold updEntry
  split
  · unfold keysNodup at *
    have hkeys : (d.map (fun p => if p.1 = k then (k, v) else p)).map (fun p => p.1) =
        d.map (fun p => p.1) := by
      rw [List.map_map]
      apply List.map_congr_left
      intro p _
      by_cases hpk : p.1 = k
      · simp [Function.comp, hpk]
      · simp [Function.comp, hpk]
    rw [hkeys]
    exact h
  · next hany =>
    unfold keysNodup at *
    rw [List.map_append, List.nodup_append]
    refine ⟨h, by simp, ?_⟩
    intro a ha hb
    simp only [List.map_cons, List.map_nil, List.mem_singleton] at hb
    subst hb
    apply hany
    rw [List.any_eq_true]
    obtain ⟨p, hp, hpk⟩ := List.mem_map.mp ha
    exact ⟨p, hp, by simp [hpk]⟩

theorem map_upd_id {α : Type} (d : List (String × α)) (k : String) (v : α)
    (hnd : keysNodup d) (hget : getEntry d k = some v) :
    d.map (fun p => if p.1 = k then (k, v) else p) = d := by
  induction d with
  | nil => rfl
  | cons p d ih =>
    unfold keysNodup at hnd
    rw [List.map_cons, List.nodup_cons] at hnd
    by_cases hpk : p.1 = k
    · unfold getEntry at hget
      rw [List.find?_cons] at hget
      rw [show (decide (p.1 = k)) = true from by simp [hpk]] at hget
      simp only [Option.map_some'] at hget
      have hkd : ∀ q ∈ d, q.1 ≠ k := by
        intro q hq hqk
        exact hnd.1 (by
          rw [← hpk] at hqk
          exact hqk ▸ List.mem_map_of_mem (fun p => p.1) hq)
      rw [List.map_cons, if_pos hpk]
      congr 1
      · have hv : p.2 = v := by injection hget
        cases p with
        | mk p1 p2 =>
          simp only at hpk hv
          subst hpk
          subst hv
          rfl
      · calc d.map (fun q => if q.1 = k then (k, v) else q)
            = d.map (fun q => q) := List.map_congr_left (fun q hq => if_neg (hkd q hq))
          _ = d := List.map_id' d
    · unfold getEntry at hget
      rw [List.find?_cons] at hget
      rw [show (decide (p.1 = k)) = false from by simp [hpk]] at hget
      rw [List.map_cons, if_neg hpk]
      rw [ih hnd.2 hget]

theorem updEntry_self_of_get {α : Type} (d : List (String × α)) (k : String) (v : α)
    (hnd : keysNodup d) (hget : getEntry d k = some v) : updEntry d k v = d := by
  have hany : d.any (fun p => decide (p.1 = k)) = true := by
    unfold getEntry at hget
    cases hf : d.find? (fun p => decide (p.1 = k)) with
    | none => rw [hf] at hget; cases hget
    | some p =>
      have hmem := List.mem_of_find?_eq_some hf
      have hpk := List.find?_some hf
      exact List.any_eq_true.mpr ⟨p, hmem, hpk⟩
  unfold updEntry
  rw [if_pos hany]
  exact map_upd_id d k v hnd hget

-- ===============================
-- Lemmas: publish loop
-- ===============================

theorem publishLoop_ok_of_noFail (createErr : String → Option String)
    (hnone : ∀ v, createErr v = none) (table_fq t : String) (cols : FinanceCols)
    (reports : List (String × ReportDef)) :
    ∀ (store acc : List (String × String)) (calls : List WCall),
    ∃ o : PublishOutcome,
      publishLoop createErr table_fq t cols reports store acc calls = Except.ok o ∧
      o.mapping = acc ++ reports.map (fun p => (p.1, viewFq t p.1)) := by
  induction reports with
  | nil =>
    intro store acc calls
    exact ⟨⟨acc, store, calls⟩, rfl, by simp⟩
  | cons q rest ih =>
    intro store acc calls
    obtain ⟨rid, meta⟩ := q
    obtain ⟨o, h1, h2⟩ := ih
      (_create_or_replace_view store (viewFq t rid) (renderedSql meta table_fq cols)).1
      (acc ++ [(rid, viewFq t rid)])
      (calls ++ [(_create_or_replace_view store (viewFq t rid) (renderedSql meta table_fq cols)).2])
    refine ⟨o, ?_, ?_⟩
    · simp only [publishLoop, hnone]
      exact h1
    · rw [h2]
      simp

theorem publishLoop_cases (createErr : String → Option String) (table_fq t : String)
    (cols : FinanceCols) (reports : List (String × ReportDef)) :
    ∀ (store acc : List (String × String)) (calls : List WCall),
    (∀ o, publishLoop createErr table_fq t cols reports store acc calls = Except.ok o →
      o.mapping = acc ++ reports.map (fun p => (p.1, viewFq t p.1))) ∧
    (∀ e, publishLoop createErr table_fq t cols reports store acc calls = Except.error e →
      ∃ vfq msg, e = PublishErr.viewFailure vfq msg ∧ createErr vfq = some msg ∧
        ∃ p, p ∈ reports ∧ vfq = viewFq t p.1) := by
  induction reports with
  | nil =>
    intro store acc calls
    constructor
    · intro o ho
      cases ho
      simp
    · intro e he
      exact Except.noConfusion he
  | cons q rest ih =>
    intro store acc calls
    obtain ⟨rid, meta⟩ := q
    cases hce : createErr (viewFq t rid) with
    | some msg =>
      constructor
      · intro o ho
        simp only [publishLoop, hce] at ho
        exact Except.noConfusion ho
      · intro e he
        simp only [publishLoop, hce] at he
        cases he
        exact ⟨viewFq t rid, msg, rfl, hce, (rid, meta), List.mem_cons_self _ _, rfl⟩
    | none =>
      have hrest := ih
        (_create_or_replace_view store (viewFq t rid) (renderedSql meta table_fq cols)).1
        (acc ++ [(rid, viewFq t rid)])
        (calls ++ [(_create_or_replace_view store (viewFq t rid) (renderedSql meta table_fq cols)).2])
      constructor
      · intro o ho
        simp only [publishLoop, hce] at ho
        rw [hrest.1 o ho]
        simp
      · intro e he
        simp only [publishLoop, hce] at he
        obtain ⟨vfq, msg, h1, h2, p, hp, h3⟩ := hrest.2 e he
        exact ⟨vfq, msg, h1, h2, p, List.mem_cons_of_mem _ hp, h3⟩

theorem publishLoop_store_spec (table_fq t : String) (cols : FinanceCols)
    (reports : List (String × ReportDef)) :
    ∀ (store acc : List (String × String)) (calls : List WCall),
    keysNodup store →
    ∀ o, publishLoop (fun _ => none) table_fq t cols reports store acc calls = Except.ok o →
      keysNodup o.store ∧
      (∀ k, (∀ p ∈ reports, k ≠ viewFq t p.1) → getEntry o.store k = getEntry store k) ∧
      ((reports.map (fun p => p.1)).Nodup →
        ∀ p ∈ reports, getEntry o.store (viewFq t p.1) =
          some (renderedSql p.2 table_fq cols)) := by
  induction reports with
  | nil =>
    intro store acc calls hnd o ho
    cases ho
    exact ⟨hnd, fun _ _ => rfl, fun _ p hp => absurd hp (List.not_mem_nil p)⟩
  | cons q rest ih =>
    intro store acc calls hnd o ho
    obtain ⟨rid, meta⟩ := q
    simp only [publishLoop] at ho
    rw [create_or_replace_fst] at ho
    have hnd' := keysNodup_updEntry store (viewFq t rid) (renderedSql meta table_fq cols) hnd
    obtain ⟨hndO, hframe, hset⟩ := ih _ _ _ hnd' o ho
    refine ⟨hndO, ?_, ?_⟩
    · intro k hk
      rw [hframe k (fun p hp => hk p (List.mem_cons_of_mem _ hp)),
        getEntry_updEntry_ne store (viewFq t rid) k (renderedSql meta table_fq cols)
          (hk (rid, meta) (List.mem_cons_self _ _))]
    · intro hnodup p hp
      rcases List.mem_cons.mp hp with heq | hp'
      · subst heq
        have hrid_not : ∀ p' ∈ rest, viewFq t rid ≠ viewFq t p'.1 := by
          intro p' hp' heq2
          have hr : rid = p'.1 := viewFq_inj heq2
          rw [List.map_cons, List.nodup_cons] at hnodup
          exact hnodup.1 (hr ▸ List.mem_map_of_mem (fun p => p.1) hp')
        rw [hframe _ hrid_not]
        exact getEntry_updEntry_self store (viewFq t rid) (renderedSql meta table_fq cols)
      · have hnodup' : (rest.map (fun p => p.1)).Nodup := by
          rw [List.map_cons, List.nodup_cons] at hnodup
          exact hnodup.2
        exact hset hnodup' p hp'

theorem publishLoop_stable (table_fq t : String) (cols : FinanceCols)
    (reports : List (String × ReportDef)) :
    ∀ (store acc : List (String × String)) (calls : List WCall),
    keysNodup store →
    (∀ p ∈ reports, getEntry store (viewFq t p.1) = some (renderedSql p.2 table_fq cols)) →
    publishLoop (fun _ => none) table_fq t cols reports store acc calls =
      Except.ok ⟨acc ++ reports.map (fun p => (p.1, viewFq t p.1)), store,
        calls ++ reports.map (fun p =>
          WCall.updateView (viewFq t p.1) (renderedSql p.2 table_fq cols))⟩ := by
  induction reports with
  | nil =>
    intro store acc calls _ _
    simp [publishLoop]
  | cons q rest ih =>
    intro store acc calls hnd hst
    obtain ⟨rid, meta⟩ := q
    have hget := hst (rid, meta) (List.mem_cons_self _ _)
    have hcre : _create_or_replace_view store (viewFq t rid) (renderedSql meta table_fq cols) =
        (store, WCall.updateView (viewFq t rid) (renderedSql meta table_fq cols)) := by
      simp only [_create_or_replace_view, hget]
      rw [updEntry_self_of_get store _ _ hnd hget]
    simp only [publishLoop, hcre]
    rw [ih store (acc ++ [(rid, viewFq t rid)])
      (calls ++ [WCall.updateView (viewFq t rid) (renderedSql meta table_fq cols)]) hnd
      (fun p hp => hst p (List.mem_cons_of_mem _ hp))]
    simp

-- ===============================
-- Claim theorems: view publishing (C7, C8)
-- ===============================

/-- C7: for every valid table name and schema whose required roles resolve,
a successful publish returns the full catalog mapping — exactly one entry per
report (5 for the fixed catalog), each view id following the
`table__reportId_v` naming scheme — and a failure on any single view aborts
the whole call with that originating error (no partial mapping is ever
returned); with no warehouse failures the call always succeeds. -/
theorem C7_publish_full_catalog (createErr : String → Option String)
    (store : List (String × String)) (schema : List String) (table_name : String)
    (cols : FinanceCols)
    (hval : validate_table_name table_name = Except.ok table_name)
    (hcols : _detect_finance_columns schema = Except.ok cols) :
    (∀ o, publish_looker_views_for_table createErr store schema table_name = Except.ok o →
      o.mapping = REPORTS.map (fun p => (p.1, viewFq table_name p.1)) ∧
      o.mapping.length = 5 ∧
      ∀ pr ∈ o.mapping, pr.2 = viewFq table_name pr.1) ∧
    (∀ e, publish_looker_views_for_table createErr store schema table_name = Except.error e →
      ∃ vfq msg, e = PublishErr.viewFailure vfq msg ∧ createErr vfq = some msg) ∧
    ((∀ v, createErr v = none) →
      ∃ o, publish_looker_views_for_table createErr store schema table_name = Except.ok o) := by
  have hred : publish_looker_views_for_table createErr store schema table_name =
      publishLoop createErr (fqName table_name) table_name cols REPORTS store [] [] := by
    simp only [publish_looker_views_for_table, hval, hcols]
  refine ⟨?_, ?_, ?_⟩
  · intro o ho
    rw [hred] at ho
    have hm := (publishLoop_cases createErr (fqName table_name) table_name cols REPORTS
      store [] []).1 o ho
    rw [List.nil_append] at hm
    refine ⟨hm, by rw [hm, List.length_map]; rfl, ?_⟩
    intro pr hpr
    rw [hm] at hpr
    obtain ⟨p, _, hpe⟩ := List.mem_map.mp hpr
    rw [← hpe]
  · intro e he
    rw [hred] at he
    obtain ⟨vfq, msg, h1, h2, _⟩ := (publishLoop_cases createErr (fqName table_name)
      table_name cols REPORTS store [] []).2 e he
    exact ⟨vfq, msg, h1, h2⟩
  · intro hnone
    obtain ⟨o, h1, _⟩ := publishLoop_ok_of_noFail createErr hnone (fqName table_name)
      table_name cols REPORTS store [] []
    exact ⟨o, by rw [hred]; exact h1⟩

/-- Witness for C7: publishing for `finance_data` over a resolvable schema
returns the full 5-entry catalog. -/
theorem C7_publish_full_catalog_witness :
    ∃ o, publish_looker_views_for_table (fun _ => none) [] ["department", "amount", "date"]
        "finance_data" = Except.ok o ∧
      o.mapping = REPORTS.map (fun p => (p.1, viewFq "finance_data" p.1)) ∧
      o.mapping.length = 5 := by
  have h := C7_publish_full_catalog (fun _ => none) [] ["department", "amount", "date"]
    "finance_data" ⟨"department", "amount", "date", none⟩ (by decide) (by decide)
  obtain ⟨o, ho⟩ := h.2.2 (fun _ => rfl)
  obtain ⟨h1, h2, _⟩ := h.1 o ho
  exact ⟨o, ho, h1, h2⟩

/-- C8: publishing views for the same table twice with an unchanged schema is
idempotent: the second call returns the identical mapping, leaves the view
store unchanged, and performs only `updateView` operations that replace the defining query of each
view with SQL already stored for it — it creates no new
objects. -/
theorem C8_publish_idempotent (store : List (String × String)) (schema : List String)
    (table_name : String) (cols : FinanceCols)
    (hnd : keysNodup store)
    (hval : validate_table_name table_name = Except.ok table_name)
    (hcols : _detect_finance_columns schema = Except.ok cols) :
    ∃ o1 o2 : PublishOutcome,
      publish_looker_views_for_table (fun _ => none) store schema table_name = Except.ok o1 ∧
      publish_looker_views_for_table (fun _ => none) o1.store schema table_name = Except.ok o2 ∧
      o2.mapping = o1.mapping ∧
      o2.store = o1.store ∧
      (∀ c ∈ o2.calls, ∃ vid sql, c = WCall.updateView vid sql ∧
        getEntry o1.store vid = some sql) := by
  have hred : ∀ s, publish_looker_views_for_table (fun _ => none) s schema table_name =
      publishLoop (fun _ => none) (fqName table_name) table_name cols REPORTS s [] [] := by
    intro s
    simp only [publish_looker_views_for_table, hval, hcols]
  obtain ⟨o1, h1, hmap1⟩ := publishLoop_ok_of_noFail (fun _ => none) (fun _ => rfl)
    (fqName table_name) table_name cols REPORTS store [] []
  obtain ⟨hnd1, _, hset1⟩ := publishLoop_store_spec (fqName table_name) table_name cols
    REPORTS store [] [] hnd o1 h1
  have hsetAll : ∀ p ∈ REPORTS, getEntry o1.store (viewFq table_name p.1) =
      some (renderedSql p.2 (fqName table_name) cols) := hset1 (by decide)
  have h2 := publishLoop_stable (fqName table_name) table_name cols REPORTS o1.store [] []
    hnd1 hsetAll
  rw [List.nil_append, List.nil_append] at h2
  rw [List.nil_append] at hmap1
  refine ⟨o1, ⟨REPORTS.map (fun p => (p.1, viewFq table_name p.1)), o1.store,
    REPORTS.map (fun p => WCall.updateView (viewFq table_name p.1)
      (renderedSql p.2 (fqName table_name) cols))⟩, ?_, ?_, ?_, rfl, ?_⟩
  · rw [hred]
    exact h1
  · rw [hred]
    exact h2
  · rw [hmap1]
  · intro c hc
    obtain ⟨p, hp, hpe⟩ := List.mem_map.mp hc
    exact ⟨viewFq table_name p.1, renderedSql p.2 (fqName table_name) cols, hpe.symm,
      hsetAll p hp⟩

/-- Witness for C8: publishing twice for `finance_data` from an empty view
store returns identical mappings and an unchanged store. -/
theorem C8_publish_idempotent_witness :
    ∃ o1 o2 : PublishOutcome,
      publish_looker_views_for_table (fun _ => none) [] ["department", "amount", "date"]
        "finance_data" = Except.ok o1 ∧
      publish_looker_views_for_table (fun _ => none) o1.store ["department", "amount", "date"]
        "finance_data" = Except.ok o2 ∧
      o2.mapping = o1.mapping ∧ o2.store = o1.store := by
  obtain ⟨o1, o2, a1, a2, a3, a4, _⟩ := C8_publish_idempotent [] ["department", "amount", "date"]
    "finance_data" ⟨"department", "amount", "date", none⟩ (by simp [keysNodup])
    (by decide) (by decide)
  exact ⟨o1, o2, a1, a2, a3, a4⟩

-- ===============================
-- Claim theorems: restore worker (C9)
-- ===============================

/-- C9: the worker checks the `.sql` suffix first and returns (having
attempted no restore) on any named message without it; for `.sql` messages a
restore failure is caught and logged, the handler still returns normally, and
since the queue acks on return and nacks only on a raised exception, the
message is never requeued — the outcome never re-raises. -/
theorem C9_worker_handling (n : String) (bucket : Option String) (restoreOk : Bool) :
    (endsWithStr n ".sql" = false →
      import_sql (some n) bucket restoreOk = (WorkerOutcome.skipped n, [])) ∧
    (endsWithStr n ".sql" = true → restoreOk = false →
      import_sql (some n) bucket restoreOk =
        (WorkerOutcome.failedLogged n, ["gs://" ++ bucket.getD "None" ++ "/" ++ n])) ∧
    ((import_sql (some n) bucket restoreOk).1).raisesOut = false := by
  refine ⟨?_, ?_, ?_⟩
  · intro h
    simp [import_sql, h]
  · intro h1 h2
    subst h2
    simp [import_sql, h1]
  · by_cases he : endsWithStr n ".sql" = true
    · by_cases hr : restoreOk = true
      · simp [import_sql, he, hr, WorkerOutcome.raisesOut]
      · simp only [Bool.not_eq_true] at hr
        simp [import_sql, he, hr, WorkerOutcome.raisesOut]
    · simp only [Bool.not_eq_true] at he
      simp [import_sql, he, WorkerOutcome.raisesOut]

/-- Witness for C9: a non-SQL message is skipped with no restore attempt, and
a failed restore of a `.sql` message is logged without re-raising. -/
theorem C9_worker_handling_witness :
    import_sql (some "notes.txt") (some "b") true = (WorkerOutcome.skipped "notes.txt", []) ∧
    import_sql (some "restore.sql") (some "b") false =
      (WorkerOutcome.failedLogged "restore.sql", ["gs://b/restore.sql"]) ∧
    ((import_sql (some "restore.sql") (some "b") false).1).raisesOut = false := by
  refine ⟨?_, ?_, ?_⟩
  · exact (C9_worker_handling "notes.txt" (some "b") true).1 (by decide)
  · exact (C9_worker_handling "restore.sql" (some "b") false).2.1 (by decide) rfl
  · exact (C9_worker_handling "restore.sql" (some "b") false).2.2

end GCPDAP
